import Mathlib

/-!
Shallow embedding of the ANCINE bulletin extraction engine (`src/app.py`)
and proofs of its specification properties.

Text lines are modelled as `List Char`.  Python `float` values are modelled
as exact rationals (`ℚ`); Python `int` as `ℤ`.  The modelled fragment of
Python's numeric-literal acceptance covers optional sign, decimal digits and
a single decimal point; Python's additional acceptance of underscore group
separators, exponent notation and the literals `inf`/`nan` is outside the
model (those shapes never arise in the claims under verification).
Python's `\d`, `int()` and `float()` accept every Unicode decimal digit
(category Nd); the model covers the ASCII block plus two representative
non-ASCII blocks (Arabic-Indic U+0660..U+0669 and fullwidth U+FF10..U+FF19).
Python whitespace is modelled by the ASCII whitespace characters.
-/

namespace Ancine

/-- Text is modelled as a list of characters. -/
abbrev Str := List Char

/-- Whitespace as used by `str.strip`, `str.split` and the regex class
backslash-s, restricted to the ASCII whitespace characters. -/
def pyIsSpace (c : Char) : Bool :=
  c = ' ' || c = '\t' || c = '\n' || c = '\r' || c.toNat = 11 || c.toNat = 12

/-- Digit value of a Unicode decimal digit (modelled blocks: ASCII,
Arabic-Indic, fullwidth); `none` for non-digit characters. -/
def digitVal? (c : Char) : Option ℕ :=
  if 48 ≤ c.toNat ∧ c.toNat ≤ 57 then some (c.toNat - 48)
  else if 1632 ≤ c.toNat ∧ c.toNat ≤ 1641 then some (c.toNat - 1632)
  else if 65296 ≤ c.toNat ∧ c.toNat ≤ 65305 then some (c.toNat - 65296)
  else none

/-- Decimal-digit test, modelling the regex class backslash-d and the digit
acceptance of `int()` / `float()` (Unicode category Nd, modelled blocks). -/
def pyIsDigit (c : Char) : Bool := (digitVal? c).isSome

/-- Digit value with default 0. -/
def dv (c : Char) : ℕ := (digitVal? c).getD 0

/-- ASCII digit test (the spec's notion of digit). -/
def isAsciiDigit (c : Char) : Bool := 48 ≤ c.toNat ∧ c.toNat ≤ 57

/-- Left strip, as in Python `str.lstrip`. -/
def lstrip (l : Str) : Str := l.dropWhile pyIsSpace

/-- Right strip, as in Python `str.rstrip`. -/
def rstrip (l : Str) : Str := (l.reverse.dropWhile pyIsSpace).reverse

/-- Both-ends strip, as in Python `str.strip()`. -/
def pyStrip (l : Str) : Str := rstrip (lstrip l)

/-- Numeric value of a digit string, most significant digit first. -/
def natOfDigits (l : Str) : ℕ := l.foldl (fun n c => 10 * n + dv c) 0

/-- Unsigned integer literal acceptance of Python `int()`: a non-empty
all-digit string. -/
def pyUIntDigits (l : Str) : Option ℕ :=
  if !l.isEmpty && l.all pyIsDigit then some (natOfDigits l) else none

/-- Python `int(s)` on a string: strip whitespace, optional sign, digits.
Returns `none` where `int` raises `ValueError`. -/
def pyInt (s : Str) : Option ℤ :=
  match pyStrip s with
  | [] => none
  | c :: t =>
    if c = '+' then (pyUIntDigits t).map (fun n => (n : ℤ))
    else if c = '-' then (pyUIntDigits t).map (fun n => -(n : ℤ))
    else (pyUIntDigits (c :: t)).map (fun n => (n : ℤ))

/-- Split a character list at every occurrence of a separator character,
as in Python `str.split(sep)` (empty pieces kept). -/
def splitOnChar (sep : Char) : Str → List Str
  | [] => [[]]
  | c :: t =>
    if c = sep then [] :: splitOnChar sep t
    else
      match splitOnChar sep t with
      | [] => [[c]]
      | h :: r => (c :: h) :: r

/-- Unsigned magnitude acceptance of Python `float()`: digits with at most
one decimal point, at least one digit overall. -/
def pyFloatMag (t : Str) : Option ℚ :=
  match splitOnChar '.' t with
  | [a] => if !a.isEmpty && a.all pyIsDigit then some (natOfDigits a) else none
  | [a, b] =>
    if (!a.isEmpty || !b.isEmpty) && a.all pyIsDigit && b.all pyIsDigit then
      some ((natOfDigits a : ℚ) + (natOfDigits b : ℚ) / 10 ^ b.length)
    else none
  | _ => none

/-- Python `float(s)` on a string, modelled over exact rationals: strip
whitespace, optional sign, digits with one optional decimal point.
Returns `none` where `float` raises `ValueError`. -/
def pyFloat (s : Str) : Option ℚ :=
  match pyStrip s with
  | [] => none
  | c :: t =>
    if c = '+' then pyFloatMag t
    else if c = '-' then (pyFloatMag t).map (fun q => -q)
    else pyFloatMag (c :: t)

/-- Python `x.replace("R$", "")`: delete every occurrence of the currency
marker, scanning left to right. -/
def replaceRS : Str → Str
  | [] => []
  | [c] => [c]
  | c1 :: c2 :: t =>
    if c1 = 'R' ∧ c2 = '$' then replaceRS t
    else c1 :: replaceRS (c2 :: t)

/-- Python `x.replace(",", ".")` on a single character. -/
def commaToDot (c : Char) : Char := if c = ',' then '.' else c

/-- Python value given to the cleaners: a string, or anything else
(`isinstance(x, str)` fails on the latter). -/
inductive PyVal
  | str (s : Str)
  | nonStr
  deriving DecidableEq

/-- Cleaning pipeline of `clean_currency_br` before the final `float` call:
remove the currency marker, strip, remove thousands dots, comma to dot. -/
def cleanedOf (s : Str) : Str :=
  ((pyStrip (replaceRS s)).filter (fun c => !(c == '.'))).map commaToDot

/-- `clean_currency_br` from `src/app.py`: converts a string like
`"1.000,00"` to the number 1000.00; non-strings and parse failures give 0. -/
def clean_currency_br : PyVal → ℚ
  | .nonStr => 0
  | .str x => (pyFloat (cleanedOf x)).getD 0

/-- `clean_int_br` from `src/app.py`: converts a string like `"1.000"` to
the integer 1000; non-strings and parse failures give 0. -/
def clean_int_br : PyVal → ℤ
  | .nonStr => 0
  | .str x => (pyInt (pyStrip (x.filter (fun c => !(c == '.'))))).getD 0

example : cleanedOf "  R$ 50.000,00 ".toList = "50000.00".toList := by decide
example : cleanedOf "1.5".toList = "15".toList := by decide
example : clean_int_br (.str "10.000".toList) = 10000 := by decide
example : clean_int_br (.str "-10".toList) = -10 := by decide
example : clean_int_br (.str "abc".toList) = 0 := by decide
example : pyInt "  +42 ".toList = some 42 := by decide
example : pyFloat "-".toList = none := by decide
example : pyFloat ".".toList = none := by decide
example : splitOnChar '.' "1.5".toList = ["1".toList, "5".toList] := by decide

/-- The classifier regex `^(\d{4})\s+` from `src/app.py` (`year_check`),
applied by `match`: the line must begin with four decimal digits followed
by at least one whitespace character. -/
def year_check (l : Str) : Bool :=
  match l with
  | d1 :: d2 :: d3 :: d4 :: c5 :: _ =>
    pyIsDigit d1 && pyIsDigit d2 && pyIsDigit d3 && pyIsDigit d4 && pyIsSpace c5
  | _ => false

/-- Does the anchor regex `[BE]\d{13}` (`cpb_pattern`) match at the head of
the list? -/
def anchorAt (l : Str) : Bool :=
  match l with
  | [] => false
  | c :: rest =>
    (c = 'B' || c = 'E') && 13 ≤ rest.length && (rest.take 13).all pyIsDigit

/-- Does the anchor regex match anywhere in the list? -/
def hasAnchor : Str → Bool
  | [] => false
  | l@(_ :: t) => anchorAt l || hasAnchor t

/-- Worker for `cpb_split`: left-to-right scan for non-overlapping anchor
matches, emitting the text between matches and each 14-character match as
its own segment (the fuel argument only makes the recursion structural; it
is always called with fuel at least the list length, so the fuel-exhausted
branch is never reached). -/
def cpbSplitAux : ℕ → Str → Str → List Str
  | _, [], acc => [acc.reverse]
  | 0, l, acc => [acc.reverse ++ l]
  | f + 1, l@(c :: rest), acc =>
    if anchorAt l then acc.reverse :: l.take 14 :: cpbSplitAux f (l.drop 14) []
    else cpbSplitAux f rest (c :: acc)

/-- `cpb_pattern.split(line)` from `src/app.py`: `re.split` on the pattern
`([BE]\d{13})`, the capture group keeping each anchor as its own segment. -/
def cpb_split (l : Str) : List Str := cpbSplitAux l.length l []

/-- One step of Python `str.split()` implemented as a right fold: running
state is (tokens already complete to the right, token being built). -/
def pySplitStep (c : Char) (acc : List Str × Str) : List Str × Str :=
  if pyIsSpace c then (if acc.2.isEmpty then acc else (acc.2 :: acc.1, []))
  else (acc.1, c :: acc.2)

/-- Python `str.split()` with no argument: split on whitespace runs,
discarding empty tokens. -/
def pySplit (l : Str) : List Str :=
  let p := l.foldr pySplitStep ([], [])
  if p.2.isEmpty then p.1 else p.2 :: p.1

/-- Python substring containment `pat in s`. -/
def containsSub (pat : Str) : Str → Bool
  | [] => pat.isEmpty
  | l@(_ :: t) => pat.isPrefixOf l || containsSub pat t

/-- The national-production marker looked up in the metadata zone. -/
def brasileiraMarker : Str := "Brasileira".toList

/-- Nationality as inferred by the record builder. -/
inductive Nac
  | Brasileira
  | Estrangeira
  deriving DecidableEq

/-- One raw exhibition record, as appended to `data` in `parse_ancine_pdf`. -/
structure Record where
  Ano_Exibicao : ℤ
  Titulo : Str
  Nacionalidade : Nac
  Publico : ℤ
  Renda : ℚ
  deriving DecidableEq

/-- Result of running the per-line body of `parse_ancine_pdf` on one line:
either the line is silently skipped, or a record is appended, or `int(ano)`
raises and the surrounding document scan aborts. -/
inductive LineResult
  | skip
  | err
  | record (r : Record)
  deriving DecidableEq

/-- Is the result the raising one? -/
def LineResult.isErr : LineResult → Bool
  | .err => true
  | _ => false

/-- `parts = cpb_pattern.split(line)` for the stripped line. -/
def partsOf (l : Str) : List Str := cpb_split (pyStrip l)

/-- `header_part = parts[0].strip()`. -/
def headerOf (l : Str) : Str := pyStrip ((partsOf l).headD [])

/-- `meta_part = parts[-1].strip()`. -/
def metaOf (l : Str) : Str := pyStrip ((partsOf l).getLastD [])

/-- `ano = header_part[:4]`. -/
def anoOf (l : Str) : Str := (headerOf l).take 4

/-- `titulo = header_part[4:].strip()`. -/
def tituloOf (l : Str) : Str := pyStrip ((headerOf l).drop 4)

/-- `tokens = meta_part.split()`. -/
def tokensOf (l : Str) : List Str := pySplit (metaOf l)

/-- `renda_raw = tokens[-1]`. -/
def rendaTok (l : Str) : Str := (tokensOf l).getLastD []

/-- `publico_raw = tokens[-2]`. -/
def publicoTok (l : Str) : Str := (tokensOf l).dropLast.getLastD []

/-- `nacionalidade = "Brasileira" if "Brasileira" in meta_part else
"Estrangeira"`. -/
def nacOf (l : Str) : Nac :=
  if containsSub brasileiraMarker (metaOf l) then .Brasileira else .Estrangeira

/-- The dictionary appended to `data` for a line whose year parse gave `y`. -/
def builtRecord (l : Str) (y : ℤ) : Record :=
  ⟨y, tituloOf l, nacOf l,
   clean_int_br (.str (publicoTok l)),
   clean_currency_br (.str (rendaTok l))⟩

/-- The per-line body of the scan loop in `parse_ancine_pdf`: strip the
line, require the leading year, split on the anchor, require at least three
segments and two metadata tokens, then build the record.  The `try` around
the header slices in the source cannot fire (Python slicing is total), so
the only raising operation modelled is the unguarded `int(ano)`. -/
def processLine (l : Str) : LineResult :=
  if year_check (pyStrip l) = true then
    if 3 ≤ (partsOf l).length then
      if 2 ≤ (tokensOf l).length then
        match pyInt (anoOf l) with
        | none => .err
        | some y => .record (builtRecord l y)
      else .skip
    else .skip
  else .skip

/-- Scan the lines of one page in order, collecting appended records; the
boolean is true when a line raised (aborting the document). -/
def linesScan : List Str → List Record × Bool
  | [] => ([], false)
  | l :: rest =>
    match processLine l with
    | .err => ([], true)
    | .skip => linesScan rest
    | .record r =>
      let p := linesScan rest
      (r :: p.1, p.2)

/-- Scan the pages of one document: `page.extract_text()` yielding `None`
or the empty string skips the page (`if not text: continue`); otherwise the
text is split on newlines and scanned line by line. -/
def docScan : List (Option Str) → List Record × Bool
  | [] => ([], false)
  | p :: rest =>
    match p with
    | none => docScan rest
    | some t =>
      if t.isEmpty then docScan rest
      else
        let q := linesScan (splitOnChar '\n' t)
        if q.2 then (q.1, true)
        else
          let w := docScan rest
          (q.1 ++ w.1, w.2)

/-- One uploaded document as seen through the external text-extraction
collaborator: either reading it raises (the corrupt-document case), or it
yields a list of pages, each with its extracted text (`none` models a page
whose extraction returns no text). -/
inductive PyDoc
  | bad
  | good (pages : List (Option Str))
  deriving DecidableEq

/-- Is the document the raising one? -/
def PyDoc.isBad : PyDoc → Bool
  | .bad => true
  | _ => false

/-- `parse_ancine_pdf` from `src/app.py`: scan each document inside a
`try`; a document that raises is reported with `st.error` (counted here)
and the scan continues with the remaining documents.  Returns the raw
table and the number of reported document-level errors. -/
def parse_ancine_pdf : List PyDoc → List Record × ℕ
  | [] => ([], 0)
  | .bad :: rest =>
    let p := parse_ancine_pdf rest
    (p.1, p.2 + 1)
  | .good pages :: rest =>
    let q := docScan pages
    let p := parse_ancine_pdf rest
    (q.1 ++ p.1, (if q.2 then 1 else 0) + p.2)

/-- `Titulo_Norm`: `df_raw['Titulo'].str.upper().str.strip()` (uppercasing
modelled on ASCII letters). -/
def normTitle (t : Str) : Str := pyStrip (t.map Char.toUpper)

/-- Grouping key of `df_grouped`: `(Titulo_Norm, Nacionalidade)`. -/
def keyOf (r : Record) : Str × Nac := (normTitle r.Titulo, r.Nacionalidade)

/-- The rows of a raw table falling in one group. -/
def groupRecs (l : List Record) (k : Str × Nac) : List Record :=
  l.filter (fun r => decide (keyOf r = k))

/-- `'Publico': 'sum'` of one group. -/
def total_audience (l : List Record) (k : Str × Nac) : ℤ :=
  ((groupRecs l k).map Record.Publico).sum

/-- `'Renda': 'sum'` of one group. -/
def total_revenue (l : List Record) (k : Str × Nac) : ℚ :=
  ((groupRecs l k).map Record.Renda).sum

/-- Minimum of a list of integers, `none` on the empty list. -/
def minOfList : List ℤ → Option ℤ
  | [] => none
  | x :: t =>
    match minOfList t with
    | none => some x
    | some m => some (min x m)

/-- `'Ano_Exibicao': 'min'` of one group. -/
def first_year (l : List Record) (k : Str × Nac) : Option ℤ :=
  minOfList ((groupRecs l k).map Record.Ano_Exibicao)

example : year_check "2009 x".toList = true := by decide
example : year_check "20091 x".toList = false := by decide
example : year_check "200 x".toList = false := by decide
example : year_check "2009".toList = false := by decide
example :
    cpb_split "2009 Filme Exemplo   B0901024500000   x 1 2".toList =
      ["2009 Filme Exemplo   ".toList, "B0901024500000".toList,
       "   x 1 2".toList] := by decide
example : cpb_split "no anchor here".toList = ["no anchor here".toList] := by
  decide
example : pySplit "  a  bb c ".toList = ["a".toList, "bb".toList, "c".toList] := by
  decide
example : containsSub brasileiraMarker " Ficção Brasileira 35mm".toList = true := by
  decide
example : tituloOf "2009 Filme Exemplo   B0901024500000   x 1 2".toList =
    "Filme Exemplo".toList := by decide
example : publicoTok "2009 Filme Exemplo   B0901024500000   Ficção Brasileira 35mm 10.000 50.000,00".toList =
    "10.000".toList := by decide

/-! Character-class facts. -/

theorem pyIsDigit_ranges {c : Char} (h : pyIsDigit c = true) :
    (48 ≤ c.toNat ∧ c.toNat ≤ 57) ∨ (1632 ≤ c.toNat ∧ c.toNat ≤ 1641) ∨
      (65296 ≤ c.toNat ∧ c.toNat ≤ 65305) := by
  simp only [pyIsDigit, digitVal?] at h
  split_ifs at h with h1 h2 h3
  · exact Or.inl h1
  · exact Or.inr (Or.inl h2)
  · exact Or.inr (Or.inr h3)
  · simp at h

theorem pyIsSpace_toNat_le {c : Char} (h : pyIsSpace c = true) : c.toNat ≤ 32 := by
  simp only [pyIsSpace, Bool.or_eq_true, decide_eq_true_eq] at h
  rcases h with ((((h | h) | h) | h) | h) | h
  · subst h; decide
  · subst h; decide
  · subst h; decide
  · subst h; decide
  · omega
  · omega

theorem pyIsDigit_not_space {c : Char} (h : pyIsDigit c = true) :
    pyIsSpace c = false := by
  cases hs : pyIsSpace c
  · rfl
  · have h1 := pyIsSpace_toNat_le hs
    have h2 := pyIsDigit_ranges h
    omega

theorem pyIsDigit_ne_anchor {c : Char} (h : pyIsDigit c = true) :
    c ≠ 'B' ∧ c ≠ 'E' := by
  constructor <;> (intro hc; subst hc; revert h; decide)

theorem pyIsDigit_ne_sign {c : Char} (h : pyIsDigit c = true) :
    c ≠ '+' ∧ c ≠ '-' := by
  constructor <;> (intro hc; subst hc; revert h; decide)

theorem pyIsDigit_ne_sep {c : Char} (h : pyIsDigit c = true) :
    c ≠ '.' ∧ c ≠ ',' := by
  constructor <;> (intro hc; subst hc; revert h; decide)

theorem pyIsDigit_ne_marker {c : Char} (h : pyIsDigit c = true) : c ≠ 'R' := by
  intro hc; subst hc; revert h; decide

theorem pyIsSpace_ne_marker {c : Char} (h : pyIsSpace c = true) : c ≠ 'R' := by
  intro hc; subst hc; revert h; decide

theorem pyIsSpace_ne_anchor {c : Char} (h : pyIsSpace c = true) :
    c ≠ 'B' ∧ c ≠ 'E' := by
  constructor <;> (intro hc; subst hc; revert h; decide)

/-! Strip lemmas. -/

theorem mem_lstrip {c : Char} {l : Str} (h : c ∈ lstrip l) : c ∈ l :=
  (List.dropWhile_sublist pyIsSpace).subset h

theorem mem_rstrip {c : Char} {l : Str} (h : c ∈ rstrip l) : c ∈ l := by
  have h1 : c ∈ l.reverse.dropWhile pyIsSpace := List.mem_reverse.mp h
  exact List.mem_reverse.mp ((List.dropWhile_sublist pyIsSpace).subset h1)

theorem mem_pyStrip {c : Char} {l : Str} (h : c ∈ pyStrip l) : c ∈ l :=
  mem_lstrip (mem_rstrip h)

theorem lstrip_cons_of_not_space {c : Char} {t : Str} (h : pyIsSpace c = false) :
    lstrip (c :: t) = c :: t := by
  simp [lstrip, List.dropWhile_cons, h]

theorem lstrip_append_of_all {W t : Str} (h : ∀ c ∈ W, pyIsSpace c = true) :
    lstrip (W ++ t) = lstrip t :=
  List.dropWhile_append_of_pos h

theorem rstrip_append_of_all {A W : Str} (h : ∀ c ∈ W, pyIsSpace c = true) :
    rstrip (A ++ W) = rstrip A := by
  unfold rstrip
  rw [List.reverse_append, List.dropWhile_append_of_pos]
  intro c hc
  exact h c (List.mem_reverse.mp hc)

theorem rstrip_concat_of_not_space {A : Str} {c : Char}
    (h : pyIsSpace c = false) : rstrip (A ++ [c]) = A ++ [c] := by
  unfold rstrip
  rw [List.reverse_append]
  simp [List.dropWhile_cons, h]

theorem pyStrip_spec {W1 A W2 : Str} (hW1 : ∀ c ∈ W1, pyIsSpace c = true)
    (hW2 : ∀ c ∈ W2, pyIsSpace c = true) (hA : A ≠ [])
    (hhd : pyIsSpace (A.headD ' ') = false)
    (hlast : pyIsSpace (A.getLastD ' ') = false) :
    pyStrip (W1 ++ A ++ W2) = A := by
  unfold pyStrip
  rw [List.append_assoc, lstrip_append_of_all hW1]
  obtain ⟨c, t, rfl⟩ := List.exists_cons_of_ne_nil hA
  rw [show (c :: t) ++ W2 = c :: (t ++ W2) by simp,
    lstrip_cons_of_not_space (by simpa using hhd),
    show c :: (t ++ W2) = (c :: t) ++ W2 by simp, rstrip_append_of_all hW2]
  obtain h | ⟨L, b, hL⟩ := (c :: t).eq_nil_or_concat
  · simp at h
  · rw [hL] at hlast ⊢
    rw [List.concat_eq_append] at hlast ⊢
    rw [rstrip_concat_of_not_space (by simpa using hlast)]

theorem pyStrip_of_ends {A : Str} (hA : A ≠ [])
    (hhd : pyIsSpace (A.headD ' ') = false)
    (hlast : pyIsSpace (A.getLastD ' ') = false) : pyStrip A = A := by
  have := @pyStrip_spec [] A [] (by simp) (by simp) hA hhd hlast
  simpa using this

theorem pyStrip_digits {A : Str} (hA : A ≠ []) (h : A.all pyIsDigit = true) :
    pyStrip A = A := by
  refine pyStrip_of_ends hA ?_ ?_
  · obtain ⟨c, t, rfl⟩ := List.exists_cons_of_ne_nil hA
    simp only [List.all_cons, Bool.and_eq_true] at h
    simpa using pyIsDigit_not_space h.1
  · obtain h' | ⟨L, b, hL⟩ := A.eq_nil_or_concat
    · exact absurd h' hA
    · subst hL
      rw [List.concat_eq_append] at h ⊢
      simp only [List.all_append, List.all_cons, Bool.and_eq_true] at h
      simpa using pyIsDigit_not_space h.2.1

/-! Number-parsing lemmas. -/

theorem pyInt_strip_cons {s : Str} {c : Char} {t : Str}
    (h : pyStrip s = c :: t) :
    pyInt s =
      if c = '+' then (pyUIntDigits t).map (fun n => (n : ℤ))
      else if c = '-' then (pyUIntDigits t).map (fun n => -(n : ℤ))
      else (pyUIntDigits (c :: t)).map (fun n => (n : ℤ)) := by
  unfold pyInt
  rw [h]

theorem pyFloat_strip_cons {s : Str} {c : Char} {t : Str}
    (h : pyStrip s = c :: t) :
    pyFloat s =
      if c = '+' then pyFloatMag t
      else if c = '-' then (pyFloatMag t).map (fun q => -q)
      else pyFloatMag (c :: t) := by
  unfold pyFloat
  rw [h]

theorem pyInt_digits {l : Str} (hne : l ≠ []) (h : l.all pyIsDigit = true) :
    pyInt l = some ((natOfDigits l : ℤ)) := by
  obtain ⟨c, t, rfl⟩ := List.exists_cons_of_ne_nil hne
  have hc : pyIsDigit c = true := by
    simp only [List.all_cons, Bool.and_eq_true] at h
    exact h.1
  rw [pyInt_strip_cons (pyStrip_digits (by simp) h)]
  rw [if_neg (pyIsDigit_ne_sign hc).1, if_neg (pyIsDigit_ne_sign hc).2]
  simp [pyUIntDigits, h]

theorem splitOnChar_of_not_mem {sep : Char} {B : Str} (h : sep ∉ B) :
    splitOnChar sep B = [B] := by
  induction B with
  | nil => rfl
  | cons c t ih =>
    have hc : ¬c = sep := fun hc => h (hc ▸ List.mem_cons_self c t)
    have ht := ih (fun hm => h (List.mem_cons_of_mem c hm))
    simp [splitOnChar, hc, ht]

theorem splitOnChar_append {sep : Char} {A B : Str} (h : sep ∉ A) :
    splitOnChar sep (A ++ sep :: B) = A :: splitOnChar sep B := by
  induction A with
  | nil => simp [splitOnChar]
  | cons a A ih =>
    have ha : ¬a = sep := fun ha => h (ha ▸ List.mem_cons_self a A)
    have hA := ih (fun hm => h (List.mem_cons_of_mem a hm))
    simp [splitOnChar, ha, hA]

theorem not_dot_mem_of_digits {a : Str} (ha : a.all pyIsDigit = true) :
    '.' ∉ a := by
  intro hm
  have := List.all_eq_true.mp ha _ hm
  have h2 := (pyIsDigit_ne_sep this).1
  exact h2 rfl

theorem pyFloatMag_digits_dot {a b : Str} (ha : a.all pyIsDigit = true)
    (hb : b.all pyIsDigit = true) (hne : a ≠ [] ∨ b ≠ []) :
    pyFloatMag (a ++ '.' :: b) =
      some ((natOfDigits a : ℚ) + (natOfDigits b : ℚ) / 10 ^ b.length) := by
  unfold pyFloatMag
  rw [splitOnChar_append (not_dot_mem_of_digits ha),
    splitOnChar_of_not_mem (not_dot_mem_of_digits hb)]
  have hcond : (!a.isEmpty || !b.isEmpty) = true := by
    rcases hne with hne | hne <;> simp [List.isEmpty_iff, hne]
  simp [hcond, ha, hb]

theorem pyFloatMag_digits {a : Str} (ha : a.all pyIsDigit = true)
    (hne : a ≠ []) : pyFloatMag a = some ((natOfDigits a : ℚ)) := by
  unfold pyFloatMag
  rw [splitOnChar_of_not_mem (not_dot_mem_of_digits ha)]
  simp [ha, List.isEmpty_iff, hne]

theorem pyStrip_digits_dot {a b : Str} (ha : a.all pyIsDigit = true)
    (hb : b.all pyIsDigit = true) : pyStrip (a ++ '.' :: b) = a ++ '.' :: b := by
  refine pyStrip_of_ends (by simp) ?_ ?_
  · cases a with
    | nil =>
      simp only [List.nil_append, List.headD_cons]
      decide
    | cons c t =>
      simp only [List.all_cons, Bool.and_eq_true] at ha
      simpa using pyIsDigit_not_space ha.1
  · obtain h | ⟨L, x, hL⟩ := b.eq_nil_or_concat
    · subst h
      rw [show a ++ '.' :: ([] : Str) = a ++ ['.'] by rfl, List.getLastD_concat]
      decide
    · subst hL
      rw [List.concat_eq_append, show a ++ '.' :: (L ++ [x]) = (a ++ '.' :: L) ++ [x] by simp]
      rw [List.getLastD_concat]
      simp only [List.concat_eq_append, List.all_append, List.all_cons,
        Bool.and_eq_true] at hb
      exact pyIsDigit_not_space hb.2.1

theorem pyFloat_digits_dot {a b : Str} (ha : a.all pyIsDigit = true)
    (hb : b.all pyIsDigit = true) (hne : a ≠ [] ∨ b ≠ []) :
    pyFloat (a ++ '.' :: b) =
      some ((natOfDigits a : ℚ) + (natOfDigits b : ℚ) / 10 ^ b.length) := by
  cases a with
  | nil =>
    rw [@pyFloat_strip_cons _ '.' b (by simpa using pyStrip_digits_dot ha hb)]
    rw [if_neg (by decide), if_neg (by decide)]
    exact pyFloatMag_digits_dot ha hb hne
  | cons c t =>
    have hc : pyIsDigit c = true := by
      simp only [List.all_cons, Bool.and_eq_true] at ha
      exact ha.1
    rw [@pyFloat_strip_cons _ c (t ++ '.' :: b)
      (by simpa using pyStrip_digits_dot ha hb)]
    rw [if_neg (pyIsDigit_ne_sign hc).1, if_neg (pyIsDigit_ne_sign hc).2]
    exact pyFloatMag_digits_dot ha hb hne

theorem pyFloat_digits {a : Str} (ha : a.all pyIsDigit = true) (hne : a ≠ []) :
    pyFloat a = some ((natOfDigits a : ℚ)) := by
  obtain ⟨c, t, rfl⟩ := List.exists_cons_of_ne_nil hne
  have hc : pyIsDigit c = true := by
    simp only [List.all_cons, Bool.and_eq_true] at ha
    exact ha.1
  rw [pyFloat_strip_cons (pyStrip_digits (by simp) ha)]
  rw [if_neg (pyIsDigit_ne_sign hc).1, if_neg (pyIsDigit_ne_sign hc).2]
  exact pyFloatMag_digits ha (by simp)

/-! Currency-marker removal lemmas. -/

theorem replaceRS_of_not_mem {l : Str} (h : 'R' ∉ l) : replaceRS l = l := by
  induction l with
  | nil => rfl
  | cons c t ih =>
    cases t with
    | nil => rfl
    | cons c2 t2 =>
      have hc : ¬(c = 'R' ∧ c2 = '$') := fun hand =>
        h (hand.1 ▸ List.mem_cons_self c (c2 :: t2))
      rw [replaceRS, if_neg hc, ih (fun hm => h (List.mem_cons_of_mem c hm))]

theorem replaceRS_append_of_not_mem {A B : Str} (h : 'R' ∉ A) :
    replaceRS (A ++ B) = A ++ replaceRS B := by
  induction A with
  | nil => rfl
  | cons a A ih =>
    have ha : a ≠ 'R' := fun ha => h (ha ▸ List.mem_cons_self a A)
    have hA := ih (fun hm => h (List.mem_cons_of_mem a hm))
    cases hAB : A ++ B with
    | nil =>
      obtain ⟨rfl, rfl⟩ := List.append_eq_nil.mp hAB
      rfl
    | cons c2 t2 =>
      rw [show (a :: A) ++ B = a :: c2 :: t2 by rw [List.cons_append, hAB]]
      rw [replaceRS, if_neg (fun hand => ha hand.1), ← hAB, hA]
      rfl

theorem mem_replaceRS {c : Char} {l : Str} (h : c ∈ replaceRS l) : c ∈ l := by
  induction l using replaceRS.induct with
  | case1 => simp [replaceRS] at h
  | case2 c1 => simpa [replaceRS] using h
  | case3 c1 c2 t hand ih =>
    rw [replaceRS, if_pos hand] at h
    exact List.mem_cons_of_mem _ (List.mem_cons_of_mem _ (ih h))
  | case4 c1 c2 t hand ih =>
    rw [replaceRS, if_neg hand] at h
    rcases List.mem_cons.mp h with rfl | h2
    · exact List.mem_cons_self _ _
    · exact List.mem_cons_of_mem _ (ih h2)

/-! Sign lemmas: the cleaners are non-negative on minus-free strings. -/

theorem pyInt_strip_nil {s : Str} (h : pyStrip s = []) : pyInt s = none := by
  unfold pyInt
  rw [h]

theorem pyFloat_strip_nil {s : Str} (h : pyStrip s = []) : pyFloat s = none := by
  unfold pyFloat
  rw [h]

theorem pyInt_nonneg {s : Str} (h : '-' ∉ s) {z : ℤ} (hz : pyInt s = some z) :
    0 ≤ z := by
  cases hstrip : pyStrip s with
  | nil => rw [pyInt_strip_nil hstrip] at hz; cases hz
  | cons c t =>
    have hc : c ≠ '-' := by
      intro hc
      exact h (mem_pyStrip (hstrip ▸ (hc ▸ List.mem_cons_self c t)))
    rw [pyInt_strip_cons hstrip] at hz
    by_cases hplus : c = '+'
    · rw [if_pos hplus] at hz
      cases hu : pyUIntDigits t with
      | none => rw [hu] at hz; cases hz
      | some n =>
        rw [hu] at hz
        simp at hz
        omega
    · rw [if_neg hplus, if_neg hc] at hz
      cases hu : pyUIntDigits (c :: t) with
      | none => rw [hu] at hz; cases hz
      | some n =>
        rw [hu] at hz
        simp at hz
        omega

theorem pyFloatMag_nonneg {t : Str} {q : ℚ} (hq : pyFloatMag t = some q) :
    0 ≤ q := by
  unfold pyFloatMag at hq
  rcases hsp : splitOnChar '.' t with _ | ⟨a, _ | ⟨b, r⟩⟩
  · rw [hsp] at hq; cases hq
  · rw [hsp] at hq
    have hq2 : (if (!a.isEmpty && a.all pyIsDigit) = true then
        some ((natOfDigits a : ℚ)) else none) = some q := hq
    split_ifs at hq2 with hcond
    simp only [Option.some.injEq] at hq2
    rw [← hq2]
    positivity
  · rw [hsp] at hq
    cases r with
    | nil =>
      have hq2 : (if ((!a.isEmpty || !b.isEmpty) && a.all pyIsDigit &&
          b.all pyIsDigit) = true then
          some ((natOfDigits a : ℚ) + (natOfDigits b : ℚ) / 10 ^ b.length)
          else none) = some q := hq
      split_ifs at hq2 with hcond
      simp only [Option.some.injEq] at hq2
      rw [← hq2]
      positivity
    | cons x xs => cases hq

theorem pyFloat_nonneg {s : Str} (h : '-' ∉ s) {q : ℚ}
    (hq : pyFloat s = some q) : 0 ≤ q := by
  cases hstrip : pyStrip s with
  | nil => rw [pyFloat_strip_nil hstrip] at hq; cases hq
  | cons c t =>
    have hc : c ≠ '-' := by
      intro hc
      exact h (mem_pyStrip (hstrip ▸ (hc ▸ List.mem_cons_self c t)))
    rw [pyFloat_strip_cons hstrip] at hq
    by_cases hplus : c = '+'
    · rw [if_pos hplus] at hq
      exact pyFloatMag_nonneg hq
    · rw [if_neg hplus, if_neg hc] at hq
      exact pyFloatMag_nonneg hq

theorem clean_int_br_nonneg {s : Str} (h : '-' ∉ s) :
    0 ≤ clean_int_br (.str s) := by
  simp only [clean_int_br]
  cases hp : pyInt (pyStrip (s.filter (fun c => !(c == '.')))) with
  | none => simp
  | some z =>
    simp only [Option.getD_some]
    refine pyInt_nonneg ?_ hp
    intro hm
    exact h (List.mem_filter.mp (mem_pyStrip hm)).1

theorem minus_not_mem_cleanedOf {s : Str} (h : '-' ∉ s) : '-' ∉ cleanedOf s := by
  intro hm
  unfold cleanedOf at hm
  obtain ⟨c0, hc0, hcd⟩ := List.mem_map.mp hm
  have hc0m : c0 = '-' := by
    unfold commaToDot at hcd
    split_ifs at hcd with h1
    · exact absurd hcd (by decide)
    · exact hcd
  subst hc0m
  exact h (mem_replaceRS (mem_pyStrip (List.mem_filter.mp hc0).1))

theorem clean_currency_br_nonneg {s : Str} (h : '-' ∉ s) :
    0 ≤ clean_currency_br (.str s) := by
  simp only [clean_currency_br]
  cases hp : pyFloat (cleanedOf s) with
  | none => simp
  | some q =>
    simp only [Option.getD_some]
    exact pyFloat_nonneg (minus_not_mem_cleanedOf h) hp

/-! The shaped-string value of the currency normalizer. -/

/-- Digit groups joined by the thousands separator, as in `"1.234"`. -/
def interDot : List Str → Str
  | [] => []
  | [a] => a
  | a :: rest => a ++ '.' :: interDot rest

theorem interDot_cons {a : Str} {g : List Str} (h : g ≠ []) :
    interDot (a :: g) = a ++ '.' :: interDot g := by
  cases g with
  | nil => exact absurd rfl h
  | cons b t => rfl

theorem mem_interDot {c : Char} {g : List Str} (h : c ∈ interDot g) :
    c = '.' ∨ ∃ grp ∈ g, c ∈ grp := by
  induction g using interDot.induct with
  | case1 => simp [interDot] at h
  | case2 a => exact Or.inr ⟨a, by simp, by simpa [interDot] using h⟩
  | case3 a b hne ih =>
    rw [interDot_cons (fun he => hne he)] at h
    rcases List.mem_append.mp h with h1 | h2
    · exact Or.inr ⟨a, by simp, h1⟩
    · rcases List.mem_cons.mp h2 with rfl | h3
      · exact Or.inl rfl
      · rcases ih h3 with h4 | ⟨grp, hg1, hg2⟩
        · exact Or.inl h4
        · exact Or.inr ⟨grp, List.mem_cons_of_mem _ hg1, hg2⟩

theorem join_all_digits {g : List Str}
    (hgrp : ∀ grp ∈ g, grp.all pyIsDigit = true) :
    g.flatten.all pyIsDigit = true :=
  List.all_eq_true.mpr fun c hc => by
    obtain ⟨grp, hg1, hg2⟩ := List.mem_flatten.mp hc
    exact List.all_eq_true.mp (hgrp grp hg1) c hg2

theorem interDot_filter {g : List Str}
    (hgrp : ∀ grp ∈ g, grp.all pyIsDigit = true) :
    (interDot g).filter (fun c => !(c == '.')) = g.flatten := by
  induction g using interDot.induct with
  | case1 => rfl
  | case2 a =>
    show List.filter (fun c => !(c == '.')) a = [a].flatten
    rw [List.filter_eq_self.mpr]
    · simp
    · intro c hc
      have hd := List.all_eq_true.mp (hgrp a (by simp)) c hc
      simpa using (pyIsDigit_ne_sep hd).1
  | case3 a b hne ih =>
    rw [interDot_cons (fun he => hne he), List.filter_append]
    have ha : List.filter (fun c => !(c == '.')) a = a := by
      rw [List.filter_eq_self]
      intro c hc
      have hd := List.all_eq_true.mp (hgrp a (by simp)) c hc
      simpa using (pyIsDigit_ne_sep hd).1
    rw [ha, List.filter_cons]
    simp only [beq_self_eq_true, Bool.not_true, Bool.false_eq_true, if_false]
    rw [ih (fun grp hg => hgrp grp (List.mem_cons_of_mem _ hg))]
    simp

theorem map_commaToDot_digits {l : Str} (h : l.all pyIsDigit = true) :
    l.map commaToDot = l := by
  induction l with
  | nil => rfl
  | cons c t ih =>
    simp only [List.all_cons, Bool.and_eq_true] at h
    have hc : commaToDot c = c := by
      unfold commaToDot
      rw [if_neg (pyIsDigit_ne_sep h.1).2]
    simp [hc, ih h.2]

theorem filter_not_dot_digits {l : Str} (h : l.all pyIsDigit = true) :
    l.filter (fun c => !(c == '.')) = l :=
  List.filter_eq_self.mpr fun c hc => by
    have hd := List.all_eq_true.mp h c hc
    simpa using (pyIsDigit_ne_sep hd).1

theorem interDot_cons_head {c0 : Char} {t0 : Str} {rest : List Str} :
    ∃ X, interDot ((c0 :: t0) :: rest) = c0 :: X := by
  cases rest with
  | nil => exact ⟨t0, rfl⟩
  | cons b t =>
    refine ⟨t0 ++ '.' :: interDot (b :: t), ?_⟩
    rw [interDot_cons (by simp)]
    rfl

/-- Value of the currency normalizer on a string of the documented shape:
optional whitespace, optional currency marker, digit groups joined by
thousands dots, a decimal comma, two decimal digits, optional whitespace. -/
theorem clean_currency_shaped {ws1 ws2 ws3 : Str} {g : List Str}
    {d1 d2 : Char} (mark : Bool)
    (h1 : ∀ c ∈ ws1, pyIsSpace c = true) (h2 : ∀ c ∈ ws2, pyIsSpace c = true)
    (h3 : ∀ c ∈ ws3, pyIsSpace c = true) (hg : g ≠ [])
    (hgrp : ∀ grp ∈ g, grp ≠ [] ∧ grp.all pyIsDigit = true)
    (hd1 : pyIsDigit d1 = true) (hd2 : pyIsDigit d2 = true) :
    clean_currency_br (.str (ws1 ++ ((if mark then ['R', '$'] else []) ++
        (ws2 ++ ((interDot g ++ ',' :: [d1, d2]) ++ ws3))))) =
      (natOfDigits g.flatten : ℚ) + (natOfDigits [d1, d2] : ℚ) / 100 := by
  have hgall : ∀ grp ∈ g, grp.all pyIsDigit = true := fun grp hm => (hgrp grp hm).2
  have hRg : 'R' ∉ interDot g := by
    intro hm
    rcases mem_interDot hm with hdot | ⟨grp, hm1, hm2⟩
    · exact absurd hdot (by decide)
    · exact pyIsDigit_ne_marker (List.all_eq_true.mp (hgall grp hm1) _ hm2) rfl
  have hRcore : 'R' ∉ interDot g ++ ',' :: [d1, d2] := by
    intro hm
    rcases List.mem_append.mp hm with hm1 | hm2
    · exact hRg hm1
    · rcases List.mem_cons.mp hm2 with hc | hm3
      · exact absurd hc (by decide)
      · rcases List.mem_cons.mp hm3 with hc | hm4
        · exact pyIsDigit_ne_marker hd1 hc.symm
        · rcases List.mem_cons.mp hm4 with hc | hm5
          · exact pyIsDigit_ne_marker hd2 hc.symm
          · simp at hm5
  have hR1 : 'R' ∉ ws1 := fun hm => pyIsSpace_ne_marker (h1 _ hm) rfl
  have hR2 : 'R' ∉ ws2 := fun hm => pyIsSpace_ne_marker (h2 _ hm) rfl
  have hR3 : 'R' ∉ ws3 := fun hm => pyIsSpace_ne_marker (h3 _ hm) rfl
  have hRrest : 'R' ∉ ws2 ++ ((interDot g ++ ',' :: [d1, d2]) ++ ws3) := by
    intro hm
    rcases List.mem_append.mp hm with hm1 | hm2
    · exact hR2 hm1
    · rcases List.mem_append.mp hm2 with hm3 | hm4
      · exact hRcore hm3
      · exact hR3 hm4
  -- Step A: the currency-marker removal.
  have hA : replaceRS (ws1 ++ ((if mark then ['R', '$'] else []) ++
      (ws2 ++ ((interDot g ++ ',' :: [d1, d2]) ++ ws3)))) =
      ws1 ++ (ws2 ++ ((interDot g ++ ',' :: [d1, d2]) ++ ws3)) := by
    rw [replaceRS_append_of_not_mem hR1]
    cases mark with
    | false =>
      simp only [if_false, Bool.false_eq_true, List.nil_append]
      rw [replaceRS_of_not_mem hRrest]
    | true =>
      simp only [if_true]
      rw [show ('R' :: '$' :: ([] : Str)) ++
        (ws2 ++ ((interDot g ++ ',' :: [d1, d2]) ++ ws3)) =
        'R' :: '$' :: (ws2 ++ ((interDot g ++ ',' :: [d1, d2]) ++ ws3)) by rfl]
      rw [replaceRS, if_pos ⟨rfl, rfl⟩, replaceRS_of_not_mem hRrest]
  -- Step B: stripping leaves exactly the numeric core.
  obtain ⟨a0, grest, rfl⟩ := List.exists_cons_of_ne_nil hg
  obtain ⟨c0, t0, rfl⟩ :=
    List.exists_cons_of_ne_nil (hgrp a0 (List.mem_cons_self a0 grest)).1
  obtain ⟨X, hX⟩ := @interDot_cons_head c0 t0 grest
  have hc0 : pyIsDigit c0 = true := by
    have := (hgrp _ (List.mem_cons_self _ _)).2
    simp only [List.all_cons, Bool.and_eq_true] at this
    exact this.1
  have hB : pyStrip (ws1 ++ (ws2 ++ ((interDot ((c0 :: t0) :: grest) ++
      ',' :: [d1, d2]) ++ ws3))) =
      interDot ((c0 :: t0) :: grest) ++ ',' :: [d1, d2] := by
    rw [show ws1 ++ (ws2 ++ ((interDot ((c0 :: t0) :: grest) ++
        ',' :: [d1, d2]) ++ ws3)) =
      (ws1 ++ ws2) ++ (interDot ((c0 :: t0) :: grest) ++ ',' :: [d1, d2]) ++ ws3
      by simp [List.append_assoc]]
    refine pyStrip_spec ?_ h3 (by simp) ?_ ?_
    · intro c hc
      rcases List.mem_append.mp hc with hm | hm
      · exact h1 _ hm
      · exact h2 _ hm
    · rw [hX]
      simpa using pyIsDigit_not_space hc0
    · rw [show interDot ((c0 :: t0) :: grest) ++ ',' :: [d1, d2] =
        (interDot ((c0 :: t0) :: grest) ++ [',', d1]) ++ [d2] by simp]
      rw [List.getLastD_concat]
      exact pyIsDigit_not_space hd2
  -- Steps C-E: dot removal, comma conversion, float parse.
  simp only [clean_currency_br, cleanedOf, hA, hB]
  rw [List.filter_append, interDot_filter hgall]
  rw [show List.filter (fun c => !(c == '.')) (',' :: [d1, d2]) =
      ',' :: [d1, d2] from List.filter_eq_self.mpr ?_]
  · rw [List.map_append, map_commaToDot_digits (join_all_digits hgall)]
    rw [show List.map commaToDot (',' :: [d1, d2]) = '.' :: [d1, d2] by
      simp only [List.map_cons, List.map_nil]
      rw [show commaToDot ',' = '.' from rfl,
        show commaToDot d1 = d1 from by
          unfold commaToDot; rw [if_neg (pyIsDigit_ne_sep hd1).2],
        show commaToDot d2 = d2 from by
          unfold commaToDot; rw [if_neg (pyIsDigit_ne_sep hd2).2]]]
    rw [pyFloat_digits_dot (join_all_digits hgall) (by simp [hd1, hd2])
      (Or.inr (by simp))]
    simp only [Option.getD_some, List.length_cons, List.length_nil]
    norm_num
  · intro c hc
    rcases List.mem_cons.mp hc with rfl | hm
    · decide
    · rcases List.mem_cons.mp hm with rfl | hm2
      · simpa using (pyIsDigit_ne_sep hd1).1
      · rcases List.mem_cons.mp hm2 with rfl | hm3
        · simpa using (pyIsDigit_ne_sep hd2).1
        · simp at hm3

/-! Classifier and splitter structure lemmas. -/

theorem year_check_shape {L : Str} (h : year_check L = true) :
    ∃ d1 d2 d3 d4 c5 t, L = d1 :: d2 :: d3 :: d4 :: c5 :: t ∧
      pyIsDigit d1 = true ∧ pyIsDigit d2 = true ∧ pyIsDigit d3 = true ∧
      pyIsDigit d4 = true ∧ pyIsSpace c5 = true := by
  rcases L with _ | ⟨d1, _ | ⟨d2, _ | ⟨d3, _ | ⟨d4, _ | ⟨c5, t⟩⟩⟩⟩⟩
  · cases h
  · cases h
  · cases h
  · cases h
  · cases h
  · simp only [year_check, Bool.and_eq_true] at h
    exact ⟨d1, d2, d3, d4, c5, t, rfl, h.1.1.1.1, h.1.1.1.2, h.1.1.2, h.1.2, h.2⟩

theorem year_check_of_shape {d1 d2 d3 d4 c5 : Char} {t : Str}
    (h1 : pyIsDigit d1 = true) (h2 : pyIsDigit d2 = true)
    (h3 : pyIsDigit d3 = true) (h4 : pyIsDigit d4 = true)
    (h5 : pyIsSpace c5 = true) :
    year_check (d1 :: d2 :: d3 :: d4 :: c5 :: t) = true := by
  simp [year_check, h1, h2, h3, h4, h5]

theorem anchorAt_false_of_digit {c : Char} {rest : Str}
    (h : pyIsDigit c = true) : anchorAt (c :: rest) = false := by
  have h1 := (pyIsDigit_ne_anchor h).1
  have h2 := (pyIsDigit_ne_anchor h).2
  simp [anchorAt, h1, h2]

theorem anchorAt_false_of_space {c : Char} {rest : Str}
    (h : pyIsSpace c = true) : anchorAt (c :: rest) = false := by
  have h1 := (pyIsSpace_ne_anchor h).1
  have h2 := (pyIsSpace_ne_anchor h).2
  simp [anchorAt, h1, h2]

theorem cpbSplitAux_no_anchor :
    ∀ (l : Str) (f : ℕ) (acc : Str), hasAnchor l = false → l.length ≤ f →
      cpbSplitAux f l acc = [acc.reverse ++ l] := by
  intro l
  induction l with
  | nil =>
    intro f acc _ _
    cases f <;> simp [cpbSplitAux]
  | cons c t ih =>
    intro f acc hA hf
    cases f with
    | zero => simp at hf
    | succ f =>
      simp only [hasAnchor, Bool.or_eq_false_iff] at hA
      rw [cpbSplitAux, if_neg (by rw [hA.1]; exact Bool.false_ne_true)]
      rw [ih f (c :: acc) hA.2 (by simpa using Nat.le_of_succ_le_succ hf)]
      simp

theorem cpbSplitAux_headD :
    ∀ (l : Str) (f : ℕ) (acc : Str),
      (cpbSplitAux f l acc).headD [] =
        acc.reverse ++ (cpbSplitAux f l []).headD [] := by
  intro l
  induction l with
  | nil =>
    intro f acc
    cases f <;> simp [cpbSplitAux]
  | cons c t ih =>
    intro f acc
    cases f with
    | zero => simp [cpbSplitAux]
    | succ f =>
      cases hA : anchorAt (c :: t) with
      | true => rw [cpbSplitAux, if_pos hA, cpbSplitAux, if_pos hA]; simp
      | false =>
        rw [cpbSplitAux, if_neg (by rw [hA]; exact Bool.false_ne_true),
          cpbSplitAux, if_neg (by rw [hA]; exact Bool.false_ne_true)]
        rw [ih f (c :: acc), ih f [c]]
        simp

theorem mem_cpbSplitAux :
    ∀ (f : ℕ) (l acc : Str), ∀ s ∈ cpbSplitAux f l acc,
      ∀ c ∈ s, c ∈ l ∨ c ∈ acc := by
  intro f
  induction f with
  | zero =>
    intro l acc s hs c hc
    cases l with
    | nil =>
      rw [cpbSplitAux] at hs
      simp only [List.mem_singleton] at hs
      subst hs
      exact Or.inr (List.mem_reverse.mp hc)
    | cons c0 t =>
      rw [cpbSplitAux] at hs
      · simp only [List.mem_singleton] at hs
        subst hs
        rcases List.mem_append.mp hc with h | h
        · exact Or.inr (List.mem_reverse.mp h)
        · exact Or.inl h
      · simp
  | succ f ih =>
    intro l acc s hs c hc
    cases l with
    | nil =>
      rw [cpbSplitAux] at hs
      simp only [List.mem_singleton] at hs
      subst hs
      exact Or.inr (List.mem_reverse.mp hc)
    | cons c0 t =>
      by_cases hA : anchorAt (c0 :: t) = true
      · rw [cpbSplitAux, if_pos hA] at hs
        rcases List.mem_cons.mp hs with rfl | hs2
        · exact Or.inr (List.mem_reverse.mp hc)
        · rcases List.mem_cons.mp hs2 with rfl | hs3
          · exact Or.inl (List.mem_of_mem_take hc)
          · rcases ih _ [] s hs3 c hc with h | h
            · exact Or.inl ((List.drop_sublist 14 (c0 :: t)).subset h)
            · simp at h
      · rw [cpbSplitAux, if_neg hA] at hs
        rcases ih t (c0 :: acc) s hs c hc with h | h
        · exact Or.inl (List.mem_cons_of_mem _ h)
        · rcases List.mem_cons.mp h with rfl | h2
          · exact Or.inl (List.mem_cons_self _ _)
          · exact Or.inr h2

theorem take4_rstrip {d1 d2 d3 d4 : Char} {rest : Str}
    (h : pyIsSpace d4 = false) :
    (rstrip (d1 :: d2 :: d3 :: d4 :: rest)).take 4 = [d1, d2, d3, d4] := by
  unfold rstrip
  rw [show (d1 :: d2 :: d3 :: d4 :: rest : Str) = [d1, d2, d3, d4] ++ rest
    from rfl, List.reverse_append, List.dropWhile_append]
  by_cases he : (rest.reverse.dropWhile pyIsSpace).isEmpty
  · rw [if_pos he]
    simp [List.dropWhile_cons, h]
  · rw [if_neg he]
    rw [List.reverse_append]
    simp [List.dropWhile_cons, h]

/-- On a classified line the anchor cannot start inside the first five
characters, so the first segment of the split carries the year digits and
the following whitespace. -/
theorem cpb_split_headD_classified {d1 d2 d3 d4 c5 : Char} {t : Str}
    (h1 : pyIsDigit d1 = true) (h2 : pyIsDigit d2 = true)
    (h3 : pyIsDigit d3 = true) (h4 : pyIsDigit d4 = true)
    (h5 : pyIsSpace c5 = true) :
    ∃ X, (cpb_split (d1 :: d2 :: d3 :: d4 :: c5 :: t)).headD [] =
      d1 :: d2 :: d3 :: d4 :: c5 :: X := by
  unfold cpb_split
  simp only [List.length_cons]
  rw [cpbSplitAux, if_neg (by rw [anchorAt_false_of_digit h1]; exact Bool.false_ne_true)]
  rw [cpbSplitAux, if_neg (by rw [anchorAt_false_of_digit h2]; exact Bool.false_ne_true)]
  rw [cpbSplitAux, if_neg (by rw [anchorAt_false_of_digit h3]; exact Bool.false_ne_true)]
  rw [cpbSplitAux, if_neg (by rw [anchorAt_false_of_digit h4]; exact Bool.false_ne_true)]
  rw [cpbSplitAux, if_neg (by rw [anchorAt_false_of_space h5]; exact Bool.false_ne_true)]
  rw [cpbSplitAux_headD]
  exact ⟨(cpbSplitAux t.length t []).headD [], by simp⟩

/-- On a classified line, `ano = header_part[:4]` is exactly the four
leading digits. -/
theorem anoOf_classified {l : Str} {d1 d2 d3 d4 c5 : Char} {t : Str}
    (hL : pyStrip l = d1 :: d2 :: d3 :: d4 :: c5 :: t)
    (h1 : pyIsDigit d1 = true) (h2 : pyIsDigit d2 = true)
    (h3 : pyIsDigit d3 = true) (h4 : pyIsDigit d4 = true)
    (h5 : pyIsSpace c5 = true) :
    anoOf l = [d1, d2, d3, d4] := by
  unfold anoOf headerOf partsOf
  rw [hL]
  obtain ⟨X, hX⟩ := @cpb_split_headD_classified d1 d2 d3 d4 c5 t h1 h2 h3 h4 h5
  rw [hX]
  unfold pyStrip
  rw [lstrip_cons_of_not_space (pyIsDigit_not_space h1)]
  exact take4_rstrip (pyIsDigit_not_space h4)

/-- On a classified line the year conversion `int(ano)` succeeds. -/
theorem pyInt_anoOf_classified {l : Str} (h : year_check (pyStrip l) = true) :
    ∃ ds : Str, anoOf l = ds ∧ ds.length = 4 ∧ ds.all pyIsDigit = true ∧
      ds = (pyStrip l).take 4 ∧ pyInt (anoOf l) = some ((natOfDigits ds : ℤ)) := by
  obtain ⟨d1, d2, d3, d4, c5, t, hL, h1, h2, h3, h4, h5⟩ := year_check_shape h
  have hano := anoOf_classified hL h1 h2 h3 h4 h5
  refine ⟨[d1, d2, d3, d4], hano, rfl, by simp [h1, h2, h3, h4], ?_, ?_⟩
  · rw [hL]
    rfl
  · rw [hano]
    exact pyInt_digits (by simp) (by simp [h1, h2, h3, h4])

/-- The record-building branch of the line scan, in terms of the named
intermediate values. -/
theorem processLine_record_eq {l : Str}
    (hy : year_check (pyStrip l) = true) (hp : 3 ≤ (partsOf l).length)
    (ht : 2 ≤ (tokensOf l).length) {y : ℤ} (hano : pyInt (anoOf l) = some y) :
    processLine l = .record (builtRecord l y) := by
  unfold processLine
  rw [if_pos hy, if_pos hp, if_pos ht, hano]

theorem processLine_skip_of_unclassified {l : Str}
    (hy : year_check (pyStrip l) = false) : processLine l = .skip := by
  unfold processLine
  rw [if_neg (by rw [hy]; exact Bool.false_ne_true)]

theorem processLine_skip_of_parts {l : Str}
    (hp : ¬3 ≤ (partsOf l).length) : processLine l = .skip := by
  unfold processLine
  by_cases hy : year_check (pyStrip l) = true
  · rw [if_pos hy, if_neg hp]
  · rw [if_neg hy]

/-- The `int(ano)` call never raises: no line can abort a document scan. -/
theorem processLine_isErr_false (l : Str) : (processLine l).isErr = false := by
  by_cases hy : year_check (pyStrip l) = true
  · by_cases hp : 3 ≤ (partsOf l).length
    · by_cases ht : 2 ≤ (tokensOf l).length
      · obtain ⟨ds, hano, _, _, _, hsome⟩ := pyInt_anoOf_classified hy
        rw [processLine_record_eq hy hp ht hsome]
        rfl
      · unfold processLine
        rw [if_pos hy, if_pos hp, if_neg ht]
        rfl
    · rw [processLine_skip_of_parts hp]
      rfl
  · rw [processLine_skip_of_unclassified (by simpa using hy)]
    rfl

/-- Inversion: every emitted record is the built record of its line. -/
theorem processLine_record_inv {l : Str} {r : Record}
    (h : processLine l = .record r) :
    ∃ y, pyInt (anoOf l) = some y ∧ r = builtRecord l y := by
  unfold processLine at h
  split_ifs at h with hy hp ht
  · cases hano : pyInt (anoOf l) with
    | none => rw [hano] at h; cases h
    | some y =>
      rw [hano] at h
      simp only [LineResult.record.injEq] at h
      exact ⟨y, rfl, h.symm⟩

/-! Tokenizer membership. -/

theorem pySplit_state_chars (l : Str) :
    (∀ t ∈ (l.foldr pySplitStep ([], [])).1, ∀ c ∈ t, c ∈ l) ∧
      (∀ c ∈ (l.foldr pySplitStep ([], [])).2, c ∈ l) := by
  induction l with
  | nil => simp
  | cons a t ih =>
    rw [List.foldr_cons]
    unfold pySplitStep
    split_ifs with hsp hemp
    · exact ⟨fun tok htok c hc => List.mem_cons_of_mem _ (ih.1 tok htok c hc),
        fun c hc => List.mem_cons_of_mem _ (ih.2 c hc)⟩
    · refine ⟨fun tok htok c hc => ?_, fun c hc => by simp at hc⟩
      rcases List.mem_cons.mp htok with rfl | htok2
      · exact List.mem_cons_of_mem _ (ih.2 c hc)
      · exact List.mem_cons_of_mem _ (ih.1 tok htok2 c hc)
    · refine ⟨fun tok htok c hc => List.mem_cons_of_mem _ (ih.1 tok htok c hc),
        fun c hc => ?_⟩
      rcases List.mem_cons.mp hc with rfl | hc2
      · exact List.mem_cons_self _ _
      · exact List.mem_cons_of_mem _ (ih.2 c hc2)

theorem mem_pySplit {l tok : Str} {c : Char} (ht : tok ∈ pySplit l)
    (hc : c ∈ tok) : c ∈ l := by
  replace ht : tok ∈
      (if (List.foldr pySplitStep ([], []) l).2.isEmpty = true then
        (List.foldr pySplitStep ([], []) l).1
      else (List.foldr pySplitStep ([], []) l).2 ::
        (List.foldr pySplitStep ([], []) l).1) := ht
  split_ifs at ht with hemp
  · exact (pySplit_state_chars l).1 tok ht c hc
  · rcases List.mem_cons.mp ht with rfl | ht2
    · exact (pySplit_state_chars l).2 c hc
    · exact (pySplit_state_chars l).1 tok ht2 c hc

theorem mem_partsOf {l : Str} {s : Str} (hs : s ∈ partsOf l) {c : Char}
    (hc : c ∈ s) : c ∈ l := by
  unfold partsOf cpb_split at hs
  rcases mem_cpbSplitAux _ _ _ s hs c hc with h | h
  · exact mem_pyStrip h
  · simp at h

theorem mem_metaOf {c : Char} {l : Str} (h : c ∈ metaOf l) : c ∈ l := by
  unfold metaOf at h
  have h1 : c ∈ (partsOf l).getLastD [] := mem_pyStrip h
  rcases List.mem_cons.mp (List.getLastD_mem_cons (partsOf l) ([] : Str)) with
    he | hm
  · rw [he] at h1
    simp at h1
  · exact mem_partsOf hm h1

theorem mem_tokensOf {c : Char} {l tok : Str} (htok : tok ∈ tokensOf l)
    (h : c ∈ tok) : c ∈ l :=
  mem_metaOf (mem_pySplit htok h)

theorem mem_rendaTok {c : Char} {l : Str} (h : c ∈ rendaTok l) : c ∈ l := by
  unfold rendaTok at h
  rcases List.mem_cons.mp (List.getLastD_mem_cons (tokensOf l) ([] : Str)) with
    he | hm
  · rw [he] at h
    simp at h
  · exact mem_tokensOf hm h

theorem mem_publicoTok {c : Char} {l : Str} (h : c ∈ publicoTok l) : c ∈ l := by
  unfold publicoTok at h
  rcases List.mem_cons.mp
      (List.getLastD_mem_cons (tokensOf l).dropLast ([] : Str)) with he | hm
  · rw [he] at h
    simp at h
  · exact mem_tokensOf ((List.dropLast_sublist (tokensOf l)).subset hm) h

theorem builtRecord_Titulo (l : Str) (y : ℤ) :
    (builtRecord l y).Titulo = tituloOf l := by
  simp only [builtRecord]

theorem builtRecord_Nacionalidade (l : Str) (y : ℤ) :
    (builtRecord l y).Nacionalidade = nacOf l := by
  simp only [builtRecord]

theorem builtRecord_Ano (l : Str) (y : ℤ) :
    (builtRecord l y).Ano_Exibicao = y := by
  simp only [builtRecord]

theorem builtRecord_Publico (l : Str) (y : ℤ) :
    (builtRecord l y).Publico = clean_int_br (.str (publicoTok l)) := by
  simp only [builtRecord]

theorem builtRecord_Renda (l : Str) (y : ℤ) :
    (builtRecord l y).Renda = clean_currency_br (.str (rendaTok l)) := by
  simp only [builtRecord]

/-- Records built from minus-free lines have non-negative audience and
revenue. -/
theorem record_nonneg_of_no_minus {l : Str} {r : Record}
    (h : processLine l = .record r) (hm : '-' ∉ l) :
    0 ≤ r.Publico ∧ 0 ≤ r.Renda := by
  obtain ⟨y, _, rfl⟩ := processLine_record_inv h
  constructor
  · rw [builtRecord_Publico]
    exact clean_int_br_nonneg (fun hc => hm (mem_publicoTok hc))
  · rw [builtRecord_Renda]
    exact clean_currency_br_nonneg (fun hc => hm (mem_rendaTok hc))

/-! Aggregator lemmas. -/

theorem minOfList_perm {l l2 : List ℤ} (h : l.Perm l2) :
    minOfList l = minOfList l2 := by
  induction h with
  | nil => rfl
  | cons x h ih => simp only [minOfList, ih]
  | swap x y l =>
    show minOfList (y :: x :: l) = minOfList (x :: y :: l)
    rcases hm : minOfList l with _ | m <;>
      simp [minOfList, hm, min_comm x y, min_left_comm x y]
  | trans h1 h2 ih1 ih2 => exact ih1.trans ih2

theorem total_audience_perm {l l2 : List Record} (h : l.Perm l2)
    (k : Str × Nac) : total_audience l k = total_audience l2 k :=
  ((h.filter _).map _).sum_eq

theorem total_revenue_perm {l l2 : List Record} (h : l.Perm l2)
    (k : Str × Nac) : total_revenue l k = total_revenue l2 k :=
  ((h.filter _).map _).sum_eq

theorem first_year_perm {l l2 : List Record} (h : l.Perm l2)
    (k : Str × Nac) : first_year l k = first_year l2 k :=
  minOfList_perm ((h.filter _).map _)

/-! Document-scan lemmas. -/

theorem linesScan_no_err (ls : List Str) : (linesScan ls).2 = false := by
  induction ls with
  | nil => rfl
  | cons l rest ih =>
    cases hp : processLine l with
    | err =>
      have h2 := processLine_isErr_false l
      rw [hp] at h2
      cases h2
    | skip => simp [linesScan, hp, ih]
    | record r => simp [linesScan, hp, ih]

theorem docScan_no_err (ps : List (Option Str)) : (docScan ps).2 = false := by
  induction ps with
  | nil => rfl
  | cons p rest ih =>
    cases p with
    | none => simpa [docScan] using ih
    | some t =>
      by_cases he : t.isEmpty = true
      · simp only [docScan, if_pos he]
        exact ih
      · simp only [docScan, if_neg he, linesScan_no_err,
          Bool.false_eq_true, if_false]
        exact ih

/-- Rows contributed by one document: none for a raising document. -/
def docRows : PyDoc → List Record
  | .bad => []
  | .good ps => (docScan ps).1

theorem parse_records_errors (docs : List PyDoc) :
    (parse_ancine_pdf docs).1 = (docs.map docRows).flatten ∧
      (parse_ancine_pdf docs).2 = docs.countP PyDoc.isBad := by
  induction docs with
  | nil => exact ⟨rfl, rfl⟩
  | cons d rest ih =>
    cases d with
    | bad =>
      refine ⟨?_, ?_⟩
      · simpa [parse_ancine_pdf, docRows] using ih.1
      · simp [parse_ancine_pdf, ih.2, PyDoc.isBad]
    | good ps =>
      refine ⟨?_, ?_⟩
      · simp only [parse_ancine_pdf, List.map_cons, List.flatten_cons, docRows]
        rw [ih.1]
      · simp only [parse_ancine_pdf, docScan_no_err, Bool.false_eq_true,
          if_false, ih.2, Nat.zero_add]
        rw [List.countP_cons_of_neg]
        simp [PyDoc.isBad]

/-! Concrete inputs used by the claim theorems. -/

/-- The example line of the specification. -/
def l1 : Str :=
  "2009 Filme Exemplo   B0901024500000   Ficção Brasileira 35mm 10.000 50.000,00".toList

/-- The record the example line must yield. -/
def rec1 : Record := ⟨2009, "Filme Exemplo".toList, .Brasileira, 10000, 50000⟩

theorem rendaTok_l1_value : clean_currency_br (.str (rendaTok l1)) = 50000 := by
  have h1 : rendaTok l1 = "50.000,00".toList := by decide
  rw [h1]
  simp only [clean_currency_br]
  have h2 : cleanedOf "50.000,00".toList =
      "50000".toList ++ '.' :: "00".toList := by decide
  rw [h2, pyFloat_digits_dot (by decide) (by decide) (Or.inl (by decide))]
  have h3 : natOfDigits "50000".toList = 50000 := by decide
  have h4 : natOfDigits "00".toList = 0 := by decide
  rw [h3, h4]
  norm_num

theorem builtRecord_l1 : builtRecord l1 2009 = rec1 := by
  have ht : tituloOf l1 = "Filme Exemplo".toList := by decide
  have hn : nacOf l1 = .Brasileira := by decide
  have hpub : clean_int_br (.str (publicoTok l1)) = 10000 := by decide
  simp only [builtRecord, ht, hn, hpub, rendaTok_l1_value, rec1]

theorem processLine_l1 : processLine l1 = .record rec1 := by
  rw [processLine_record_eq (by decide) (by decide) (by decide)
    (show pyInt (anoOf l1) = some 2009 by decide), builtRecord_l1]

/-- C1.  Processing the specification's example line through the full
extractor (classification, anchor split, record building) yields exactly
one record, with exhibition year 2009, title "Filme Exemplo", Brazilian
nationality, audience 10000 and revenue 50000.00. -/
theorem end_to_end_example_line :
    parse_ancine_pdf [.good [some l1]] = ([rec1], 0) ∧
      rec1.Ano_Exibicao = 2009 ∧ rec1.Titulo = "Filme Exemplo".toList ∧
      rec1.Nacionalidade = .Brasileira ∧ rec1.Publico = 10000 ∧
      rec1.Renda = 50000 := by
  refine ⟨?_, rfl, rfl, rfl, rfl, rfl⟩
  have hsplit : splitOnChar '\n' l1 = [l1] := by decide
  have hne : l1.isEmpty = false := by decide
  have hlines : linesScan [l1] = ([rec1], false) := by
    rw [linesScan, processLine_l1]
    rfl
  have hdoc : docScan [some l1] = ([rec1], false) := by
    simp only [docScan, hne, Bool.false_eq_true, if_false, hsplit, hlines,
      List.append_nil]
  simp only [parse_ancine_pdf, hdoc, Bool.false_eq_true, if_false,
    List.append_nil, Nat.zero_add]

/-- C9.  The currency normalizer removes every dot before parsing, so a
string using a dot as decimal separator is reinterpreted: `"1.5"` becomes
15, not 1.5 and not 0. -/
theorem dot_removed_reinterprets :
    clean_currency_br (.str "1.5".toList) = 15 ∧ (15 : ℚ) ≠ 3 / 2 ∧
      (15 : ℚ) ≠ 0 := by
  refine ⟨?_, by norm_num, by norm_num⟩
  simp only [clean_currency_br]
  rw [show cleanedOf "1.5".toList = "15".toList by decide,
    pyFloat_digits (by decide) (by decide)]
  rw [show natOfDigits "15".toList = 15 by decide]
  norm_num

/-- The line whose header holds nothing but the year. -/
def l3 : Str := "2009   B0000000000001 Brasileira 10 5,00".toList

/-- The empty-titled record that line yields. -/
def rec3 : Record := ⟨2009, [], .Brasileira, 10, 5⟩

theorem rendaTok_l3_value : clean_currency_br (.str (rendaTok l3)) = 5 := by
  have h1 : rendaTok l3 = "5,00".toList := by decide
  rw [h1]
  simp only [clean_currency_br]
  rw [show cleanedOf "5,00".toList = "5".toList ++ '.' :: "00".toList by decide,
    pyFloat_digits_dot (by decide) (by decide) (Or.inl (by decide))]
  rw [show natOfDigits "5".toList = 5 by decide,
    show natOfDigits "00".toList = 0 by decide]
  norm_num

theorem processLine_l3 : processLine l3 = .record rec3 := by
  rw [processLine_record_eq (by decide) (by decide) (by decide)
    (show pyInt (anoOf l3) = some 2009 by decide)]
  have ht : tituloOf l3 = [] := by decide
  have hn : nacOf l3 = .Brasileira := by decide
  have hpub : clean_int_br (.str (publicoTok l3)) = 10 := by decide
  simp only [builtRecord, ht, hn, hpub, rendaTok_l3_value, rec3]

/-- C3 counterexample.  A classified, anchor-split line whose header holds
only the four year digits is not discarded: the builder emits a record
whose trimmed title is empty. -/
theorem empty_title_not_discarded_cex :
    year_check (pyStrip l3) = true ∧ 3 ≤ (partsOf l3).length ∧
      tituloOf l3 = [] ∧ processLine l3 = .record rec3 ∧ rec3.Titulo = [] :=
  ⟨by decide, by decide, by decide, processLine_l3, rfl⟩

/-- C3, amended.  The builder performs no title-emptiness check: every
emitted record's title is the trimmed header remainder after the year
slice, which may be empty, and such lines still contribute a record. -/
theorem title_field_characterization :
    ∀ (l : Str) (r : Record), processLine l = .record r →
      r.Titulo = tituloOf l := by
  intro l r h
  obtain ⟨y, _, rfl⟩ := processLine_record_inv h
  exact builtRecord_Titulo l y

/-- Witness for the amended C3 at the empty-title line. -/
theorem title_field_characterization_witness :
    processLine l3 = .record rec3 ∧ rec3.Titulo = tituloOf l3 :=
  ⟨processLine_l3, title_field_characterization l3 rec3 processLine_l3⟩

/-- The line whose audience and revenue tokens carry a leading minus. -/
def l4 : Str := "2009 Filme B0000000000000 Brasileira -10 -5,00".toList

/-- The negative record that line yields. -/
def rec4 : Record := ⟨2009, "Filme".toList, .Brasileira, -10, -5⟩

theorem rendaTok_l4_value : clean_currency_br (.str (rendaTok l4)) = -5 := by
  have h1 : rendaTok l4 = "-5,00".toList := by decide
  rw [h1]
  simp only [clean_currency_br]
  rw [show cleanedOf "-5,00".toList = '-' :: "5.00".toList by decide,
    @pyFloat_strip_cons ('-' :: "5.00".toList) '-' "5.00".toList (by decide)]
  rw [if_neg (by decide), if_pos rfl]
  rw [show ("5.00".toList : Str) = "5".toList ++ '.' :: "00".toList by decide,
    pyFloatMag_digits_dot (by decide) (by decide) (Or.inl (by decide))]
  rw [show natOfDigits "5".toList = 5 by decide,
    show natOfDigits "00".toList = 0 by decide]
  simp only [Option.map_some']
  norm_num

theorem processLine_l4 : processLine l4 = .record rec4 := by
  rw [processLine_record_eq (by decide) (by decide) (by decide)
    (show pyInt (anoOf l4) = some 2009 by decide)]
  have ht : tituloOf l4 = "Filme".toList := by decide
  have hn : nacOf l4 = .Brasileira := by decide
  have hpub : clean_int_br (.str (publicoTok l4)) = -10 := by decide
  simp only [builtRecord, ht, hn, hpub, rendaTok_l4_value, rec4]

/-- C4 counterexample.  A line whose audience and revenue tokens carry a
leading minus sign produces a record with negative audience and negative
revenue: `int()` and `float()` both accept a sign. -/
theorem negative_fields_cex :
    processLine l4 = .record rec4 ∧ rec4.Publico < 0 ∧ rec4.Renda < 0 :=
  ⟨processLine_l4, by norm_num [rec4], by norm_num [rec4]⟩

/-- C4, amended.  Records built from lines containing no minus sign have
non-negative audience and revenue; a leading minus in the audience or
revenue token is passed through and yields a negative value. -/
theorem nonneg_fields_of_minus_free :
    ∀ (l : Str) (r : Record), processLine l = .record r → '-' ∉ l →
      0 ≤ r.Publico ∧ 0 ≤ r.Renda :=
  fun _ _ h hm => record_nonneg_of_no_minus h hm

/-- The minus-free line used to witness the amended C4. -/
def l4b : Str := "2010 Bom B0000000000002 Estrangeira 7 8,00".toList

/-- The record the minus-free line yields. -/
def rec4b : Record := ⟨2010, "Bom".toList, .Estrangeira, 7, 8⟩

theorem rendaTok_l4b_value : clean_currency_br (.str (rendaTok l4b)) = 8 := by
  have h1 : rendaTok l4b = "8,00".toList := by decide
  rw [h1]
  simp only [clean_currency_br]
  rw [show cleanedOf "8,00".toList = "8".toList ++ '.' :: "00".toList by decide,
    pyFloat_digits_dot (by decide) (by decide) (Or.inl (by decide))]
  rw [show natOfDigits "8".toList = 8 by decide,
    show natOfDigits "00".toList = 0 by decide]
  norm_num

theorem processLine_l4b : processLine l4b = .record rec4b := by
  rw [processLine_record_eq (by decide) (by decide) (by decide)
    (show pyInt (anoOf l4b) = some 2010 by decide)]
  have ht : tituloOf l4b = "Bom".toList := by decide
  have hn : nacOf l4b = .Estrangeira := by decide
  have hpub : clean_int_br (.str (publicoTok l4b)) = 7 := by decide
  simp only [builtRecord, ht, hn, hpub, rendaTok_l4b_value, rec4b]

/-- Witness for the amended C4 at a concrete minus-free line. -/
theorem nonneg_fields_of_minus_free_witness :
    processLine l4b = .record rec4b ∧ '-' ∉ l4b ∧
      (0 ≤ rec4b.Publico ∧ 0 ≤ rec4b.Renda) :=
  ⟨processLine_l4b, by decide,
    nonneg_fields_of_minus_free l4b rec4b processLine_l4b (by decide)⟩

/-- A line whose leading year is written with fullwidth (non-ASCII)
decimal digits. -/
def l6 : Str := "２００９ x".toList

/-- C6 counterexample.  The pattern backslash-d of the classifier regex
matches every Unicode decimal digit, so a trimmed line opening with four
fullwidth digits and a space is classified as a data line even though none
of those digits is ASCII. -/
theorem year_check_unicode_cex :
    year_check (pyStrip l6) = true ∧
      ((pyStrip l6).take 4).all isAsciiDigit = false ∧
      isAsciiDigit ((pyStrip l6).headD ' ') = false := by
  refine ⟨by decide, by decide, by decide⟩

/-- C6, amended.  The classifier accepts a line iff its stripped form
begins with exactly four Unicode decimal digits (as matched by the regex
class backslash-d, of which the ASCII digits are the typical case)
followed by at least one whitespace character. -/
theorem year_check_iff :
    ∀ l : Str, year_check (pyStrip l) = true ↔
      ∃ d1 d2 d3 d4 c5 t, pyStrip l = d1 :: d2 :: d3 :: d4 :: c5 :: t ∧
        pyIsDigit d1 = true ∧ pyIsDigit d2 = true ∧ pyIsDigit d3 = true ∧
        pyIsDigit d4 = true ∧ pyIsSpace c5 = true := by
  intro l
  constructor
  · exact year_check_shape
  · rintro ⟨d1, d2, d3, d4, c5, t, hL, h1, h2, h3, h4, h5⟩
    rw [hL]
    exact year_check_of_shape h1 h2 h3 h4 h5

/-- Witness for the amended C6 at the fullwidth-digit line. -/
theorem year_check_iff_witness :
    ∃ d1 d2 d3 d4 c5 t, pyStrip l6 = d1 :: d2 :: d3 :: d4 :: c5 :: t ∧
      pyIsDigit d1 = true ∧ pyIsDigit d2 = true ∧ pyIsDigit d3 = true ∧
      pyIsDigit d4 = true ∧ pyIsSpace c5 = true :=
  (year_check_iff l6).mp (by decide)

/-- C7.  A classified line in which the anchor pattern matches nowhere
splits into a single segment (fewer than three), is skipped without
raising, and leaves the scan of the remaining lines unchanged. -/
theorem no_anchor_skips :
    ∀ l : Str, year_check (pyStrip l) = true →
      hasAnchor (pyStrip l) = false →
      (cpb_split (pyStrip l)).length < 3 ∧ processLine l = .skip ∧
        ∀ rest : List Str, linesScan (l :: rest) = linesScan rest := by
  intro l _ hA
  have hsplit : cpb_split (pyStrip l) = [pyStrip l] := by
    unfold cpb_split
    exact cpbSplitAux_no_anchor _ _ _ hA le_rfl
  have hlen : (cpb_split (pyStrip l)).length < 3 := by
    rw [hsplit]
    simp
  have hskip : processLine l = .skip := by
    refine processLine_skip_of_parts ?_
    unfold partsOf
    omega
  exact ⟨hlen, hskip, fun rest => by rw [linesScan, hskip]⟩

/-- The concrete anchorless line used to witness C7. -/
def l7 : Str := "2009 Filme sem selo 1 2".toList

/-- Witness for C7 at a concrete classified anchorless line. -/
theorem no_anchor_skips_witness :
    year_check (pyStrip l7) = true ∧ hasAnchor (pyStrip l7) = false ∧
      ((cpb_split (pyStrip l7)).length < 3 ∧ processLine l7 = .skip ∧
        ∀ rest : List Str, linesScan (l7 :: rest) = linesScan rest) :=
  ⟨by decide, by decide, no_anchor_skips l7 (by decide) (by decide)⟩

/-- C10.  On every line that passes classification and the anchor split,
`ano = header_part[:4]` equals the four leading digits of the stripped
line, so `int(ano)` succeeds; and no line whatsoever can make the scan
raise: the per-line body never returns the raising outcome. -/
theorem year_conversion_total :
    (∀ l : Str, year_check (pyStrip l) = true → 3 ≤ (partsOf l).length →
      anoOf l = (pyStrip l).take 4 ∧ (anoOf l).all pyIsDigit = true ∧
        (pyInt (anoOf l)).isSome = true) ∧
    (∀ l : Str, (processLine l).isErr = false) := by
  constructor
  · intro l hy _
    obtain ⟨ds, hano, _, hdig, htake, hsome⟩ := pyInt_anoOf_classified hy
    refine ⟨by rw [hano, htake], by rw [hano]; exact hdig, ?_⟩
    rw [hsome]
    rfl
  · exact processLine_isErr_false

/-- The concrete line used to witness C10. -/
def l10 : Str := "2010 Outro B1111111111111 Estrangeira 2 3,00".toList

/-- Witness for C10 at a concrete classified, anchor-split line. -/
theorem year_conversion_total_witness :
    year_check (pyStrip l10) = true ∧ 3 ≤ (partsOf l10).length ∧
      (anoOf l10 = (pyStrip l10).take 4 ∧ (anoOf l10).all pyIsDigit = true ∧
        (pyInt (anoOf l10)).isSome = true) :=
  ⟨by decide, by decide, year_conversion_total.1 l10 (by decide) (by decide)⟩

/-- C2.  The aggregation is order-independent: permuting the raw table
leaves every group's summed audience, summed revenue and minimum
exhibition year unchanged. -/
theorem aggregation_perm_invariant :
    ∀ l l2 : List Record, l.Perm l2 → ∀ k : Str × Nac,
      total_audience l k = total_audience l2 k ∧
        total_revenue l k = total_revenue l2 k ∧
        first_year l k = first_year l2 k :=
  fun _ _ h k =>
    ⟨total_audience_perm h k, total_revenue_perm h k, first_year_perm h k⟩

/-- First concrete record for the C2 witness. -/
def recA : Record := ⟨2009, "A".toList, .Brasileira, 1, 1⟩

/-- Second concrete record for the C2 witness. -/
def recB : Record := ⟨2010, "A".toList, .Brasileira, 2, 2⟩

/-- The concrete group key of those records. -/
def keyAB : Str × Nac := ("A".toList, .Brasileira)

/-- Witness for C2 at a concrete two-record table and its swap. -/
theorem aggregation_perm_invariant_witness :
    ([recA, recB].Perm [recB, recA]) ∧
      (total_audience [recA, recB] keyAB = total_audience [recB, recA] keyAB ∧
        total_revenue [recA, recB] keyAB = total_revenue [recB, recA] keyAB ∧
        first_year [recA, recB] keyAB = first_year [recB, recA] keyAB) :=
  ⟨List.Perm.swap recB recA [],
    aggregation_perm_invariant [recA, recB] [recB, recA]
      (List.Perm.swap recB recA []) keyAB⟩

/-- C5.  The currency normalizer returns 0 on non-string input, returns 0
on any string whose cleaned form fails to parse, never raises (it is a
total function), and on every string of the documented shape — optional
whitespace, optional currency marker, digit groups joined by thousands
dots, a decimal comma, two decimal digits, optional whitespace — returns
the numerically equivalent value. -/
theorem clean_currency_br_spec :
    clean_currency_br PyVal.nonStr = 0 ∧
    (∀ s : Str, pyFloat (cleanedOf s) = none →
      clean_currency_br (.str s) = 0) ∧
    (∀ (ws1 ws2 ws3 : Str) (g : List Str) (d1 d2 : Char) (mark : Bool),
      (∀ c ∈ ws1, pyIsSpace c = true) → (∀ c ∈ ws2, pyIsSpace c = true) →
      (∀ c ∈ ws3, pyIsSpace c = true) → g ≠ [] →
      (∀ grp ∈ g, grp ≠ [] ∧ grp.all pyIsDigit = true) →
      pyIsDigit d1 = true → pyIsDigit d2 = true →
      clean_currency_br (.str (ws1 ++ ((if mark then ['R', '$'] else []) ++
          (ws2 ++ ((interDot g ++ ',' :: [d1, d2]) ++ ws3))))) =
        (natOfDigits g.flatten : ℚ) + (natOfDigits [d1, d2] : ℚ) / 100) := by
  refine ⟨rfl, ?_, ?_⟩
  · intro s h
    simp [clean_currency_br, h]
  · intro ws1 ws2 ws3 g d1 d2 mark h1 h2 h3 hg hgrp hd1 hd2
    exact clean_currency_shaped mark h1 h2 h3 hg hgrp hd1 hd2

/-- Witness for C5 at the concrete string `"R$ 1.234,56"`. -/
theorem clean_currency_br_spec_witness :
    (∀ c ∈ ([] : Str), pyIsSpace c = true) ∧
      (∀ c ∈ ([' '] : Str), pyIsSpace c = true) ∧
      ([['1'], ['2', '3', '4']] : List Str) ≠ [] ∧
      (∀ grp ∈ ([['1'], ['2', '3', '4']] : List Str),
        grp ≠ [] ∧ grp.all pyIsDigit = true) ∧
      pyIsDigit '5' = true ∧ pyIsDigit '6' = true ∧
      clean_currency_br (.str "R$ 1.234,56".toList) = 123456 / 100 := by
  refine ⟨by decide, by decide, by decide, by decide, by decide, by decide, ?_⟩
  rw [show "R$ 1.234,56".toList = ([] : Str) ++ ((if true then ['R', '$']
      else []) ++ ([' '] ++ ((interDot [['1'], ['2', '3', '4']] ++
      ',' :: ['5', '6']) ++ ([] : Str)))) by decide]
  rw [clean_currency_br_spec.2.2 [] [' '] [] [['1'], ['2', '3', '4']] '5' '6'
    true (by decide) (by decide) (by decide) (by decide) (by decide)
    (by decide) (by decide)]
  rw [show natOfDigits ([['1'], ['2', '3', '4']] : List Str).flatten = 1234
      by decide,
    show natOfDigits ['5', '6'] = 56 by decide]
  norm_num

/-- C8.  Document-level failures are isolated: the raw table is exactly
the concatenation of the rows of the successfully read documents, the
number of reported errors equals the number of raising documents, and a
raising document anywhere in the batch contributes one error and no rows,
leaving the other documents' contributions unchanged. -/
theorem document_failure_isolation :
    (∀ docs : List PyDoc,
      (parse_ancine_pdf docs).1 = (docs.map docRows).flatten ∧
        (parse_ancine_pdf docs).2 = docs.countP PyDoc.isBad) ∧
    (∀ pre post : List PyDoc,
      (parse_ancine_pdf (pre ++ PyDoc.bad :: post)).1 =
        (parse_ancine_pdf pre).1 ++ (parse_ancine_pdf post).1 ∧
      (parse_ancine_pdf (pre ++ PyDoc.bad :: post)).2 =
        (parse_ancine_pdf pre).2 + (parse_ancine_pdf post).2 + 1) := by
  refine ⟨parse_records_errors, ?_⟩
  intro pre post
  obtain ⟨hr1, he1⟩ := parse_records_errors (pre ++ PyDoc.bad :: post)
  obtain ⟨hr2, he2⟩ := parse_records_errors pre
  obtain ⟨hr3, he3⟩ := parse_records_errors post
  constructor
  · rw [hr1, hr2, hr3, List.map_append, List.map_cons, List.flatten_append,
      List.flatten_cons]
    rfl
  · rw [he1, he2, he3, List.countP_append, List.countP_cons_of_pos _ _ rfl]
    omega

end Ancine
